import Mathlib

/-!
Verification of the language-processing pipeline of `src/qt_app.py`
(lexer, parser, semantic checker and line-based interpreter of the
"inicio … fin" toy language).  Every definition below is a shallow
embedding of the corresponding Python code; the only material not taken
from the repository is the restricted model of the host expression
evaluator (Python `eval` / `exec`), which the spec describes in §4.4.
-/

namespace MiniLang

/-! ## Character-list string operations

The Python string operations the pipeline relies on (`strip`, `split`,
`startswith`, `endswith`, slicing, `join`), written over the character
list of a `String` by structural recursion so that every use reduces
inside the kernel.  Python operates on code points, as `List Char`
does. -/

/-- The whitespace characters Python `str.strip()` removes (ASCII). -/
def isWS (c : Char) : Bool :=
  c == ' ' || c == '\t' || c == '\n' || c == '\r' || c == '\x0b' || c == '\x0c'

def trimL (cs : List Char) : List Char :=
  (((cs.dropWhile isWS).reverse).dropWhile isWS).reverse

/-- Python `s.strip()`. -/
def trimS (s : String) : String := ⟨trimL s.data⟩

def isPrefixL : List Char → List Char → Bool
  | [], _ => true
  | _ :: _, [] => false
  | p :: ps, c :: cs => p == c && isPrefixL ps cs

/-- Python `s.startswith(p)`. -/
def startsWithS (s p : String) : Bool := isPrefixL p.data s.data

/-- Python `s.endswith(p)`. -/
def endsWithS (s p : String) : Bool := isPrefixL p.data.reverse s.data.reverse

/-- Python slicing `s[n:]` (by code points). -/
def dropS (s : String) (n : Nat) : String := ⟨s.data.drop n⟩

/-- Python slicing `s[:-n]`. -/
def dropRightS (s : String) (n : Nat) : String := ⟨(s.data.reverse.drop n).reverse⟩

/-- Scanner for `split`: fuel-driven, one code point (or one separator
occurrence) per step. -/
def splitOnAux (sep : List Char) : Nat → List Char → List Char → List (List Char)
  | 0, rest, acc => [acc.reverse ++ rest]
  | _ + 1, [], acc => [acc.reverse]
  | fuel + 1, c :: cs, acc =>
    if isPrefixL sep (c :: cs) then
      acc.reverse :: splitOnAux sep fuel (List.drop sep.length (c :: cs)) []
    else splitOnAux sep fuel cs (c :: acc)

/-- Python `s.split(sep)` for a non-empty separator: every occurrence
splits, empty parts are kept. -/
def splitOnS (s sep : String) : List String :=
  (splitOnAux sep.data (s.data.length + 1) s.data []).map (fun l => ⟨l⟩)

def intercalateL (sep : List Char) : List (List Char) → List Char
  | [] => []
  | [x] => x
  | x :: y :: xs => x ++ sep ++ intercalateL sep (y :: xs)

/-- Python `sep.join(xs)`. -/
def intercalateS (sep : String) (xs : List String) : String :=
  ⟨intercalateL sep.data (xs.map String.data)⟩

/-! ## Runtime values and the environment

The interpreter (`MainWindow.run_code`) stores values produced by the
host evaluator in a flat `variables` dict.  The fragments the program
feeds to the evaluator produce integers, strings and booleans. -/

inductive Val where
  | int (n : Int)
  | str (s : String)
  | bool (b : Bool)
deriving DecidableEq, Repr

/-- Textual form of a value, as Python `str` renders the values in scope
(ints print as decimal numerals, booleans as `True` / `False`). -/
def valStr : Val → String
  | .int n => toString n
  | .str s => s
  | .bool b => if b then "True" else "False"

/-- Python truthiness of the modelled values (used by the `para` loop
condition `while eval(condition, ...)`). -/
def truthy : Val → Bool
  | .int n => n != 0
  | .str s => s != ""
  | .bool b => b

/-- Python `==` on the modelled values: numbers compare numerically
(`True == 1` holds since `bool` is an `int` subtype), strings compare as
strings, and values of unrelated types compare unequal. -/
def eqVal : Val → Val → Bool
  | .int a, .int b => a == b
  | .str a, .str b => a == b
  | .bool a, .bool b => a == b
  | .bool a, .int b => (if a then (1 : Int) else 0) == b
  | .int a, .bool b => a == (if b then (1 : Int) else 0)
  | _, _ => false

/-- Flat variable environment: the `variables` dict of `run_code`.
Association list with unique keys; later assignment overwrites. -/
def Env := List (String × Val)
deriving instance DecidableEq, Repr for Env

/-- Update of an association list, as assignment into a Python dict:
replaces the value of an existing key, else appends. -/
def assocSet {β : Type} : List (String × β) → String → β → List (String × β)
  | [], k, v => [(k, v)]
  | (k', v') :: rest, k, v =>
    if k' = k then (k, v) :: rest else (k', v') :: assocSet rest k v

/-- Lookup in the environment; `none` models a missing dict key. -/
def envGet (env : Env) (k : String) : Option Val :=
  match env with
  | [] => none
  | (k', v) :: rest => if k' = k then some v else envGet rest k

def envSet (env : Env) (k : String) (v : Val) : Env := assocSet env k v

/-! ## Expression evaluator

`run_code` delegates expression evaluation to the host (`eval(expr, {},
variables)`).  Modelled from the spec (§4.4): the host evaluator is not
repository code, and the spec restricts the expression language fed to
it to integer literals, double-quoted string literals, variable
references, `+ - * /` and the comparisons `== < > <= >=`.  Anything
outside this grammar (for example the `@` used by the tests) makes the
host raise, which the model renders as `none`.  Division is left
unsupported (`none`) because the host produces a float there, outside
the modelled value domain. -/

def isIdStart (c : Char) : Bool := c.isAlpha || c == '_'

def isIdCont (c : Char) : Bool := c.isAlpha || c.isDigit || c == '_'

def isOpChar (c : Char) : Bool := ['+', '-', '*', '/', '=', '<', '>'].contains c

inductive ETok where
  | num (n : Nat)
  | ident (s : String)
  | lit (s : String)
  | op (s : String)
deriving DecidableEq, Repr

def digitsToNat (ds : List Char) : Nat :=
  ds.foldl (fun acc c => acc * 10 + (c.toNat - '0'.toNat)) 0

/-- Tokenizer for the restricted expression grammar (fuel-driven; the
fuel is the character count, each step consumes at least one char). -/
def etokenize : Nat → List Char → Option (List ETok)
  | 0, _ => none
  | _ + 1, [] => some []
  | fuel + 1, c :: cs =>
    if c == ' ' || c == '\t' then etokenize fuel cs
    else if c.isDigit then
      (etokenize fuel (cs.dropWhile Char.isDigit)).map
        (fun ts => ETok.num (digitsToNat (c :: cs.takeWhile Char.isDigit)) :: ts)
    else if isIdStart c then
      (etokenize fuel (cs.dropWhile isIdCont)).map
        (fun ts => ETok.ident (String.mk (c :: cs.takeWhile isIdCont)) :: ts)
    else if c == '"' then
      match cs.dropWhile (fun d => d != '"') with
      | '"' :: rest =>
        (etokenize fuel rest).map
          (fun ts => ETok.lit (String.mk (cs.takeWhile (fun d => d != '"'))) :: ts)
      | _ => none
    else if c == '=' then
      match cs with
      | '=' :: rest => (etokenize fuel rest).map (fun ts => ETok.op "==" :: ts)
      | _ => none
    else if c == '<' then
      match cs with
      | '=' :: rest => (etokenize fuel rest).map (fun ts => ETok.op "<=" :: ts)
      | _ => (etokenize fuel cs).map (fun ts => ETok.op "<" :: ts)
    else if c == '>' then
      match cs with
      | '=' :: rest => (etokenize fuel rest).map (fun ts => ETok.op ">=" :: ts)
      | _ => (etokenize fuel cs).map (fun ts => ETok.op ">" :: ts)
    else if c == '+' || c == '-' || c == '*' || c == '/' then
      (etokenize fuel cs).map (fun ts => ETok.op (String.mk [c]) :: ts)
    else none

def addVal : Val → Val → Option Val
  | .int a, .int b => some (.int (a + b))
  | .str a, .str b => some (.str (a ++ b))
  | _, _ => none

def subVal : Val → Val → Option Val
  | .int a, .int b => some (.int (a - b))
  | _, _ => none

def mulVal : Val → Val → Option Val
  | .int a, .int b => some (.int (a * b))
  | _, _ => none

def cmpVal (op : String) (a b : Val) : Option Val :=
  if op = "==" then some (.bool (eqVal a b))
  else
    match a, b with
    | .int x, .int y =>
      if op = "<" then some (.bool (x < y))
      else if op = ">" then some (.bool (x > y))
      else if op = "<=" then some (.bool (x ≤ y))
      else if op = ">=" then some (.bool (x ≥ y))
      else none
    | _, _ => none

def evalAtom (toks : List ETok) (env : Env) : Option (Val × List ETok) :=
  match toks with
  | .num n :: rest => some (.int (Int.ofNat n), rest)
  | .ident s :: rest => (envGet env s).map (fun v => (v, rest))
  | .lit s :: rest => some (.str s, rest)
  | _ => none

def evalMulTail : Nat → Val → List ETok → Env → Option (Val × List ETok)
  | 0, _, _, _ => none
  | fuel + 1, v, .op "*" :: rest, env =>
    match evalAtom rest env with
    | some (w, rest') =>
      match mulVal v w with
      | some u => evalMulTail fuel u rest' env
      | none => none
    | none => none
  | _ + 1, v, toks, _ => some (v, toks)

def evalMul (fuel : Nat) (toks : List ETok) (env : Env) : Option (Val × List ETok) :=
  match evalAtom toks env with
  | some (v, rest) => evalMulTail fuel v rest env
  | none => none

def evalAddTail : Nat → Val → List ETok → Env → Option (Val × List ETok)
  | 0, _, _, _ => none
  | fuel + 1, v, .op "+" :: rest, env =>
    match evalMul fuel rest env with
    | some (w, rest') =>
      match addVal v w with
      | some u => evalAddTail fuel u rest' env
      | none => none
    | none => none
  | fuel + 1, v, .op "-" :: rest, env =>
    match evalMul fuel rest env with
    | some (w, rest') =>
      match subVal v w with
      | some u => evalAddTail fuel u rest' env
      | none => none
    | none => none
  | _ + 1, v, toks, _ => some (v, toks)

def evalAdd (fuel : Nat) (toks : List ETok) (env : Env) : Option (Val × List ETok) :=
  match evalMul fuel toks env with
  | some (v, rest) => evalAddTail fuel v rest env
  | none => none

def evalCmp (fuel : Nat) (toks : List ETok) (env : Env) : Option (Val × List ETok) :=
  match evalAdd fuel toks env with
  | some (a, .op o :: rest) =>
    if o = "==" || o = "<" || o = ">" || o = "<=" || o = ">=" then
      match evalAdd fuel rest env with
      | some (b, rest') =>
        match cmpVal o a b with
        | some r => some (r, rest')
        | none => none
      | none => none
    else some (a, .op o :: rest)
  | r => r

/-- Models the host evaluation `eval(expr, {}, variables)` on the
restricted grammar of spec §4.4.  `none` models a raised host
exception (syntax error, unknown name, unsupported operation). -/
def evalExpr (s : String) (env : Env) : Option Val :=
  match etokenize (s.data.length + 1) s.data with
  | none => none
  | some toks =>
    match evalCmp (toks.length + 1) toks env with
    | some (v, []) => some v
    | _ => none

/-- A Python identifier (ASCII model): what the left side of an
assignment statement must be for `exec` to accept it. -/
def isPyIdent (s : String) : Bool :=
  match s.data with
  | [] => false
  | c :: cs => isIdStart c && cs.all isIdCont

/-- Models the host statement execution `exec(stmt, {}, variables)` on
the single-assignment form `<identifier> = <expression>` that
`run_code` feeds it (the `para` initializer and increment).  Anything
else — in particular the initializer `var i = 0` whose left side is not
one identifier — raises in the host, modelled as `none`. -/
def execStmt (s : String) (env : Env) : Option Env :=
  match splitOnS s "=" with
  | [lhs, rhs] =>
    if isPyIdent (trimS lhs) then (evalExpr rhs env).map (envSet env (trimS lhs))
    else none
  | _ => none

/-! ## Interpreter

Shallow embedding of `MainWindow.run_code` (src/qt_app.py lines
341-427).  The run splits the source on newlines and walks the line
list with a cursor `i`, a `variables` dict, a `functions` dict and the
console output.  Loops are driven by fuel because the `para` loop of
the source is unbounded. -/

/-- Interpreter state: `variables`, `functions`, console output lines,
and the line cursor `i`. -/
structure St where
  env : Env
  funcs : List (String × List String)
  out : List String
  i : Nat
deriving Repr

/-- Result of a run: normal completion, early return after printing a
runtime error message (the `return` statements of `run_code`), an
uncaught host exception, or fuel exhaustion (the source loops without
bound on such inputs). -/
inductive RunOutcome where
  | done (out : List String)
  | diag (out : List String)
  | crash (out : List String)
  | fuelOut
deriving DecidableEq, Repr

def printErrMsg (n : Nat) : String :=
  "Error: expresión inválida en la línea " ++ toString n

def varErrMsg (name : String) (n : Nat) : String :=
  "Error: valor inválido para la variable " ++ name ++ " en la línea " ++ toString n

def paraErrMsg : String := "Error: sintaxis incorrecta en el bucle para"

/-- The `funcion` body scan (lines 360-364): advance collecting raw
lines until one whose stripped form starts with `fin_funcion`; `none`
models the uncaught IndexError when the scan runs past the end.
Returns the collected body and the offset of the `fin_funcion` line. -/
def scanFunc : List String → Option (List String × Nat)
  | [] => none
  | l :: rest =>
    if startsWithS (trimS l) "fin_funcion" then some ([], 0)
    else (scanFunc rest).map (fun p => (l :: p.1, p.2 + 1))

/-- The block-body loop shared by the `si` (lines 385-398) and `para`
(lines 412-425) branches: starting from the lines after the block
header, execute only `imprimir` lines until a line starting with the
closing keyword (or the end of the list).  `rem` is the remaining line
list, `idx` the absolute index of its first line (for error messages).
Returns the console output and the number of lines consumed, or the
whole-run outcome on an evaluation error. -/
def bodyLoop (stopKw : String) (env : Env) :
    List String → Nat → List String → Except RunOutcome (List String × Nat)
  | [], _, out => .ok (out, 0)
  | l :: rest, idx, out =>
    let s := trimS l
    if startsWithS s stopKw then .ok (out, 0)
    else if startsWithS s "imprimir" then
      let msg := trimS (dropS s 8)
      if startsWithS msg "\"" && endsWithS msg "\"" then
        (bodyLoop stopKw env rest (idx + 1) (out ++ [dropRightS (dropS msg 1) 1])).map
          (fun p => (p.1, p.2 + 1))
      else
        match evalExpr msg env with
        | none => .error (.diag (out ++ [printErrMsg (idx + 1)]))
        | some v =>
          (bodyLoop stopKw env rest (idx + 1) (out ++ [valStr v])).map
            (fun p => (p.1, p.2 + 1))
    else (bodyLoop stopKw env rest (idx + 1) out).map (fun p => (p.1, p.2 + 1))

/-- The condition text of a `si` line (line 378):
`line[len("si"):].strip().split("entonces")[0].strip()`. -/
def siCond (line : String) : String :=
  trimS ((splitOnS (trimS (dropS line 2)) "entonces").headD "")

/-- The `si` comparison (line 384): `variables.get(var_name) ==
eval(value, {}, variables)`.  `none` models the uncaught exception when
the right side fails to evaluate; a missing variable compares unequal
(Python `None == value` is false for the modelled values). -/
def siTest (env : Env) (v e : String) : Option Bool :=
  (evalExpr e env).map (fun w =>
    match envGet env v with
    | some u => eqVal u w
    | none => false)

/-- The `para` iteration (lines 410-426): re-evaluate the condition
(uncaught host error if it fails); while truthy, run the body with the
body loop, then execute the increment with the host `exec` (uncaught
error if it fails), and repeat.  The cursor is never reset to the body
start, exactly as in the source. -/
def paraLoop (lines : List String) (cond incr : String) :
    Nat → Env → List String → Nat → Except RunOutcome (Env × List String × Nat)
  | 0, _, _, _ => .error .fuelOut
  | fuel + 1, env, out, i =>
    match evalExpr cond env with
    | none => .error (.crash out)
    | some v =>
      if truthy v then
        match bodyLoop "fin_para" env (lines.drop (i + 1)) (i + 1) out with
        | .error o => .error o
        | .ok (out', k) =>
          match execStmt incr env with
          | none => .error (.crash out')
          | some env' => paraLoop lines cond incr fuel env' out' (i + 1 + k)
      else .ok (env, out, i)

/-- The main loop of `run_code` (lines 347-427).  Each outer iteration
consumes one unit of fuel; `lines.get? st.i = none` is the loop exit
`i < len(lines)`. -/
def runFrom (lines : List String) : Nat → St → RunOutcome
  | 0, _ => .fuelOut
  | fuel + 1, st =>
    match lines.get? st.i with
    | none => .done st.out
    | some raw =>
      let line := trimS raw
      if startsWithS line "var" then
        match splitOnS (dropS line 3) "=" with
        | [n, v] =>
          match evalExpr (trimS v) st.env with
          | none => .diag (st.out ++ [varErrMsg (trimS n) (st.i + 1)])
          | some w =>
            runFrom lines fuel { st with env := envSet st.env (trimS n) w, i := st.i + 1 }
        | _ => .crash st.out
      else if startsWithS line "funcion" then
        match scanFunc (lines.drop (st.i + 1)) with
        | none => .crash st.out
        | some (body, k) =>
          runFrom lines fuel
            { st with funcs := assocSet st.funcs (trimS (dropS line 7)) body,
                      i := st.i + 1 + k + 1 }
      else if startsWithS line "imprimir" then
        let msg := trimS (dropS line 8)
        if startsWithS msg "\"" && endsWithS msg "\"" then
          runFrom lines fuel
            { st with out := st.out ++ [dropRightS (dropS msg 1) 1], i := st.i + 1 }
        else
          match evalExpr msg st.env with
          | none => .diag (st.out ++ [printErrMsg (st.i + 1)])
          | some v =>
            runFrom lines fuel { st with out := st.out ++ [valStr v], i := st.i + 1 }
      else if startsWithS line "si" then
        match splitOnS (siCond line) "==" with
        | [l, r] =>
          match siTest st.env (trimS l) (trimS r) with
          | none => .crash st.out
          | some true =>
            match bodyLoop "fin_si" st.env (lines.drop (st.i + 1)) (st.i + 1) st.out with
            | .error o => o
            | .ok (out', k) => runFrom lines fuel { st with out := out', i := st.i + 1 + k + 1 }
          | some false => runFrom lines fuel { st with i := st.i + 2 }
        | [_] => runFrom lines fuel { st with i := st.i + 1 }
        | _ => .crash st.out
      else if startsWithS line "para" then
        match splitOnS (dropS line 4) ";" with
        | [ini, cond, incr] =>
          match splitOnS ini "=" with
          | [n, v] =>
            match evalExpr (trimS v) st.env with
            | none => .crash st.out
            | some w =>
              let env1 := envSet st.env (trimS n) w
              match execStmt (trimS n ++ " = " ++ trimS v) env1 with
              | none => .crash st.out
              | some env2 =>
                match paraLoop lines cond incr fuel env2 st.out st.i with
                | .error o => o
                | .ok (env3, out', i') =>
                  runFrom lines fuel { st with env := env3, out := out', i := i' + 1 }
          | _ => .crash st.out
        | _ => .diag (st.out ++ [paraErrMsg])
      else runFrom lines fuel { st with i := st.i + 1 }

/-- The interpreter entry point: `run_code` splits the editor text on
newlines and runs the main loop from line 0 with empty state. -/
def run (source : String) (fuel : Nat) : RunOutcome :=
  runFrom (splitOnS source "\n") fuel ⟨[], [], [], 0⟩

/-! ## Lexer

Shallow embedding of `MainWindow.lexer` (src/qt_app.py lines 463-496).
The Python scanner matches, at each position, the first of the regex
alternatives STRING, NUMBER, ID, OP, NEWLINE, SKIP, MISMATCH; the
character classes are modelled at their ASCII meaning.  A NEWLINE match
only advances the line counter — no token is appended; SKIP appends
nothing; MISMATCH prints a lex error and returns `None`. -/

/-- A token as produced by the lexer: the `(kind, value)` pair of the
source. -/
structure Tok where
  kind : String
  text : String
deriving DecidableEq, Repr

/-- The reserved words that re-classify an ID token (line 464). -/
def keywords : List String :=
  ["inicio", "fin", "funcion", "retornar", "var", "mientras", "si",
   "entonces", "fin_si", "sino", "para", "imprimir"]

/-- ASCII upper-casing, as Python `value.upper()` acts on the keyword
texts. -/
def strUpper (s : String) : String := ⟨s.data.map Char.toUpper⟩

inductive LexResult where
  | ok (toks : List Tok)
  | err (c : Char) (line : Nat)
  | fuelOut
deriving DecidableEq, Repr

/-- Prepend a token to a successful lex; errors pass through (the
source returns `None` discarding all tokens collected so far). -/
def consTok (t : Tok) : LexResult → LexResult
  | .ok ts => .ok (t :: ts)
  | r => r

/-- One scanner pass (fuel-driven; every step consumes at least one
character, so `length + 1` fuel always suffices).  Rule order and
content follow `token_specification` exactly: a quote opens a STRING
(whose body may span newlines, `[^"]*`), a digit a NUMBER, a letter or
underscore an ID (re-tagged when the text is a keyword), one of
`+ - * / = < >` an OP; a newline bumps the line counter, spaces and
tabs are skipped, and any other character is a fatal MISMATCH. -/
def lexAux : Nat → List Char → Nat → LexResult
  | 0, _, _ => .fuelOut
  | _ + 1, [], _ => .ok []
  | fuel + 1, c :: cs, ln =>
    if c == '"' then
      match cs.dropWhile (fun d => d != '"') with
      | '"' :: rest =>
        consTok ⟨"STRING", String.mk ('"' :: cs.takeWhile (fun d => d != '"') ++ ['"'])⟩
          (lexAux fuel rest ln)
      | _ => .err c ln
    else if c.isDigit then
      consTok ⟨"NUMBER", String.mk (c :: cs.takeWhile Char.isDigit)⟩
        (lexAux fuel (cs.dropWhile Char.isDigit) ln)
    else if isIdStart c then
      consTok
        (let w := String.mk (c :: cs.takeWhile isIdCont)
         if keywords.contains w then ⟨strUpper w, w⟩ else ⟨"ID", w⟩)
        (lexAux fuel (cs.dropWhile isIdCont) ln)
    else if isOpChar c then
      consTok ⟨"OP", String.mk [c]⟩ (lexAux fuel cs ln)
    else if c == '\n' then lexAux fuel cs (ln + 1)
    else if c == ' ' || c == '\t' then
      lexAux fuel (cs.dropWhile (fun d => d == ' ' || d == '\t')) ln
    else .err c ln

/-- The lexer entry point, line counter starting at 1. -/
def lexer (s : String) : LexResult := lexAux (s.data.length + 1) s.data 1

/-- A character matched by no defined token rule: not a quote, digit,
identifier character, operator, newline, space or tab — only the
MISMATCH catch-all can consume it. -/
def isMismatchChar (c : Char) : Bool :=
  !(c == '"' || c.isDigit || isIdStart c || isOpChar c || c == '\n' || c == ' ' || c == '\t')

/-- The first mismatch character of a source together with the line
number the claim's formula predicts for it: the count of newline
characters preceding it plus one (`ln` starts at 1). -/
def expectedErr : List Char → Nat → Option (Char × Nat)
  | [], _ => none
  | c :: cs, ln =>
    if isMismatchChar c then some (c, ln)
    else expectedErr cs (if c == '\n' then ln + 1 else ln)

/-! ## Parser

Shallow embedding of `MainWindow.parser` (src/qt_app.py lines
498-563).  The source builds a `QTreeWidgetItem` tree with a mutable
`current_node` pointer that moves down on block-opening keywords and to
`current_node.parent()` on block-closing ones.  The tree-with-pointer
is modelled as a zipper: the current node's label and children plus a
stack of parent frames.  `parent()` of the root returns `None`; any
subsequent attribute access on it raises, modelled by the `crash`
outcome. -/

/-- A labeled ordered tree: the syntax tree the parser displays. -/
inductive STree where
  | node (label : String) (children : List STree)
deriving Repr

/-- One parent frame of the zipper: the parent's label and the children
it had accumulated before the current node was pushed. -/
structure Frame where
  label : String
  done : List STree
deriving Repr

/-- The parser's `current_node`: either a position inside the tree, or
`above` — `current_node` is Python `None` after popping at the root,
with the finished root remembered (the root object itself stays
valid). -/
inductive PState where
  | at (curr : String × List STree) (ctx : List Frame)
  | above (root : STree)

/-- `current_node.addChild(t)`: `none` models `None.addChild`
(AttributeError). -/
def PState.addChild : PState → STree → Option PState
  | .at (l, cs) ctx, t => some (.at (l, cs ++ [t]) ctx)
  | .above _, _ => none

/-- Append a child to `current_node` and descend into it (the `SI`,
`FUNCION` and `PARA` branches). -/
def PState.push : PState → String → Option PState
  | .at (l, cs) ctx, lbl => some (.at (lbl, []) (⟨l, cs⟩ :: ctx))
  | .above _, _ => none

/-- `current_node = current_node.parent()` (the `FIN_SI`,
`FIN_FUNCION` and `FIN_PARA` branches): at the root the parent is
`None`, which only crashes on later use; popping when already `None`
crashes now. -/
def PState.pop : PState → Option PState
  | .at (l, cs) (f :: ctx) => some (.at (f.label, f.done ++ [.node l cs]) ctx)
  | .at (l, cs) [] => some (.above (.node l cs))
  | .above _ => none

/-- The `SINO` branch: append a `sino` node to `current_node.parent()`
and make it current; at the root the parent is `None` and the append
crashes immediately. -/
def PState.sino : PState → Option PState
  | .at (l, cs) (f :: ctx) => some (.at ("sino", []) (⟨f.label, f.done ++ [.node l cs]⟩ :: ctx))
  | .at _ [] => none
  | .above _ => none

/-- Rebuild the whole tree from the zipper (the root object the source
holds on to). -/
def zipUp : (String × List STree) → List Frame → STree
  | (l, cs), [] => .node l cs
  | (l, cs), f :: ctx => zipUp (f.label, f.done ++ [STree.node l cs]) ctx

/-- End of the token walk: `parse_tree.addChild(QTreeWidgetItem(["fin"]))`
appends a `fin` leaf to the root (not to `current_node`), then the root
is returned. -/
def PState.finish : PState → STree
  | .at curr ctx =>
    match zipUp curr ctx with
    | .node l cs => .node l (cs ++ [.node "fin" []])
  | .above (.node l cs) => .node l (cs ++ [.node "fin" []])

inductive ParseOutcome where
  | tree (t : STree)
  | diag (msg : String)
  | crash
  | fuelOut
deriving Repr

def precondMsg : String :=
  "Error sintáctico: el código debe comenzar con \"inicio\" y terminar con \"fin\"."

def imprimirMsg (pos : Nat) : String :=
  "Error sintáctico: se esperaba un identificador, número o cadena después de \"imprimir\" en la posición "
    ++ toString pos

def entoncesMsg : String :=
  "Error sintáctico: se esperaba \"entonces\" después de la condición del si"

/-- The token walk of `parser` (lines 503-562).  `pos` mirrors the
index `i` of the source (used in the IMPRIMIR diagnostic); each outer
iteration consumes at least one token, so `length + 1` fuel always
suffices. -/
def parserLoop : Nat → Nat → List Tok → PState → ParseOutcome
  | 0, _, _, _ => .fuelOut
  | _ + 1, _, [], st => .tree st.finish
  | fuel + 1, pos, t :: rest, st =>
    if t.kind = "IMPRIMIR" then
      match rest with
      | [] => .diag (imprimirMsg pos)
      | u :: rest' =>
        if u.kind = "ID" ∨ u.kind = "NUMBER" ∨ u.kind = "STRING" then
          match st.addChild (.node ("imprimir " ++ u.text) []) with
          | none => .crash
          | some st' => parserLoop fuel (pos + 2) rest' st'
        else .diag (imprimirMsg pos)
    else if t.kind = "SI" then
      let condToks := rest.takeWhile (fun u => u.kind ≠ "ENTONCES")
      match rest.dropWhile (fun u => u.kind ≠ "ENTONCES") with
      | [] => .diag entoncesMsg
      | _ :: rest' =>
        match st.push ("si " ++ intercalateS " " (condToks.map Tok.text) ++ " entonces") with
        | none => .crash
        | some st' => parserLoop fuel (pos + condToks.length + 2) rest' st'
    else if t.kind = "FIN_SI" then
      match st.pop with
      | none => .crash
      | some st' => parserLoop fuel (pos + 1) rest st'
    else if t.kind = "SINO" then
      match st.sino with
      | none => .crash
      | some st' => parserLoop fuel (pos + 1) rest st'
    else if t.kind = "VAR" then
      let decl := rest.takeWhile (fun u => u.kind ≠ "NEWLINE")
      match st.addChild (.node "var" [.node (intercalateS " " (decl.map Tok.text)) []]) with
      | none => .crash
      | some st' =>
        match rest.dropWhile (fun u => u.kind ≠ "NEWLINE") with
        | [] => parserLoop fuel (pos + decl.length + 2) [] st'
        | _ :: rest' => parserLoop fuel (pos + decl.length + 2) rest' st'
    else if t.kind = "FUNCION" then
      match rest with
      | [] => .crash
      | u :: rest' =>
        match st.push ("funcion " ++ u.text) with
        | none => .crash
        | some st' => parserLoop fuel (pos + 2) rest' st'
    else if t.kind = "FIN_FUNCION" then
      match st.pop with
      | none => .crash
      | some st' => parserLoop fuel (pos + 1) rest st'
    else if t.kind = "PARA" then
      match rest with
      | a :: b :: c :: rest' =>
        match st.push ("para " ++ a.text ++ " " ++ b.text ++ " " ++ c.text) with
        | none => .crash
        | some st' => parserLoop fuel (pos + 4) rest' st'
      | _ => .crash
    else if t.kind = "FIN_PARA" then
      match st.pop with
      | none => .crash
      | some st' => parserLoop fuel (pos + 1) rest st'
    else
      match st.addChild (.node t.text []) with
      | none => .crash
      | some st' => parserLoop fuel (pos + 1) rest st'

/-- `MainWindow.parser`: the precondition check of lines 499-501, then
the token walk starting from a fresh root labeled `inicio`. -/
def parser (ts : List Tok) : ParseOutcome :=
  if ts.head?.map Tok.kind = some "INICIO" ∧ ts.getLast?.map Tok.kind = some "FIN" then
    parserLoop (ts.length + 1) 0 ts (.at ("inicio", []) [])
  else .diag precondMsg

/-! ## Semantic checker -/

/-- `MainWindow.semantic_analyzer` (lines 565-568): returns `True`
without looking at the tree. -/
def semantic_analyzer (_tree : STree) : Bool := true

/-! ## The display pipeline -/

/-- The lex-then-parse path of `analyze_code`: tokenize, and on success
parse the token sequence. -/
def pipeline (source : String) : Option ParseOutcome :=
  match lexer source with
  | .ok ts => some (parser ts)
  | _ => none

/-! ## Concrete sources named by the claims -/

def c1src : String :=
  "inicio\npara var i = 0; i < 3; i = i + 1\nimprimir i\nfin_para\nfin"

def c2src : String :=
  "inicio\nvar x = 6\nsi x == 5 entonces\nimprimir \"a\"\nimprimir \"b\"\nfin_si\nfin"

def c10src : String := "inicio\nvar x = @\nfuncion f\nfin"

/-! ## Supporting lemmas -/

theorem takeWhile_append_stop {α : Type} (p : α → Bool) (b : α) (hb : p b = false) :
    ∀ (l₁ l₂ : List α), (∀ a ∈ l₁, p a = true) →
      (l₁ ++ b :: l₂).takeWhile p = l₁ ∧ (l₁ ++ b :: l₂).dropWhile p = b :: l₂ := by
  intro l₁
  induction l₁ with
  | nil => intro l₂ _; simp [List.takeWhile_cons, List.dropWhile_cons, hb]
  | cons a l ih =>
    intro l₂ h
    have ha : p a = true := h a (by simp)
    have hrec := ih l₂ (fun x hx => h x (by simp [hx]))
    simp [List.takeWhile_cons, List.dropWhile_cons, ha, hrec.1, hrec.2]

theorem scanFunc_eq_none :
    ∀ rem : List String,
      rem.all (fun l => !(startsWithS (trimS l) "fin_funcion")) = true →
      scanFunc rem = none := by
  intro rem
  induction rem with
  | nil => intro _; rfl
  | cons l rest ih =>
    intro h
    rw [List.all_cons, Bool.and_eq_true] at h
    have h1 : startsWithS (trimS l) "fin_funcion" = false := by
      have hb := h.1
      cases hx : startsWithS (trimS l) "fin_funcion" with
      | true => rw [hx] at hb; exact absurd hb (by decide)
      | false => rfl
    simp [scanFunc, h1, ih h.2]

theorem length_dropWhile_le' {α : Type} (p : α → Bool) :
    ∀ l : List α, (l.dropWhile p).length ≤ l.length := by
  intro l
  induction l with
  | nil => exact Nat.le_refl 0
  | cons a l ih =>
    rw [List.dropWhile_cons]
    by_cases h : p a = true
    · rw [if_pos h]; exact Nat.le_succ_of_le ih
    · rw [if_neg h]

theorem not_mem_dropWhile {α : Type} {a : α} (p : α → Bool) :
    ∀ l : List α, a ∉ l → a ∉ l.dropWhile p := by
  intro l
  induction l with
  | nil => intro h; exact h
  | cons b l ih =>
    intro h
    rw [List.dropWhile_cons]
    by_cases hb : p b = true
    · rw [if_pos hb]
      exact ih (fun hm => h (List.mem_cons_of_mem b hm))
    · rw [if_neg hb]; exact h

theorem digit_benign (a : Char) (h : a.isDigit = true) :
    isMismatchChar a = false ∧ (a == '\n') = false := by
  refine ⟨by simp [isMismatchChar, h], ?_⟩
  cases hb : a == '\n' with
  | false => rfl
  | true => rw [beq_iff_eq] at hb; subst hb; exact absurd h (by decide)

theorem idCont_benign (a : Char) (h : isIdCont a = true) :
    isMismatchChar a = false ∧ (a == '\n') = false := by
  have hn : (a == '\n') = false := by
    cases hb : a == '\n' with
    | false => rfl
    | true => rw [beq_iff_eq] at hb; subst hb; exact absurd h (by decide)
  refine ⟨?_, hn⟩
  rw [isIdCont, Bool.or_eq_true, Bool.or_eq_true] at h
  rcases h with (h | h) | h
  · simp [isMismatchChar, isIdStart, h]
  · simp [isMismatchChar, h]
  · simp [isMismatchChar, isIdStart, h]

theorem op_benign (a : Char) (h : isOpChar a = true) :
    isMismatchChar a = false ∧ (a == '\n') = false := by
  refine ⟨by simp [isMismatchChar, h], ?_⟩
  cases hb : a == '\n' with
  | false => rfl
  | true => rw [beq_iff_eq] at hb; subst hb; exact absurd h (by decide)

theorem spacetab_benign (a : Char) (h : (a == ' ' || a == '\t') = true) :
    isMismatchChar a = false ∧ (a == '\n') = false := by
  rw [Bool.or_eq_true] at h
  rcases h with h | h
  · rw [beq_iff_eq] at h; subst h; exact ⟨by decide, by decide⟩
  · rw [beq_iff_eq] at h; subst h; exact ⟨by decide, by decide⟩

theorem expectedErr_dropWhile (p : Char → Bool)
    (hp : ∀ a, p a = true → isMismatchChar a = false ∧ (a == '\n') = false) :
    ∀ (cs : List Char) (ln : Nat), expectedErr (cs.dropWhile p) ln = expectedErr cs ln := by
  intro cs
  induction cs with
  | nil => intro ln; rfl
  | cons c cs ih =>
    intro ln
    rw [List.dropWhile_cons]
    by_cases h : p c = true
    · rw [if_pos h, ih]
      simp [expectedErr, (hp c h).1, (hp c h).2]
    · rw [if_neg h]

theorem expectedErr_cons_benign (a : Char) (cs : List Char) (ln : Nat)
    (h1 : isMismatchChar a = false) :
    expectedErr (a :: cs) ln = expectedErr cs (if a == '\n' then ln + 1 else ln) := by
  simp [expectedErr, h1]

theorem expectedErr_prefix (c : Char) (post : List Char) (hc : isMismatchChar c = true) :
    ∀ (pre : List Char) (ln : Nat), (∀ a ∈ pre, isMismatchChar a = false) →
      expectedErr (pre ++ c :: post) ln = some (c, ln + pre.count '\n') := by
  intro pre
  induction pre with
  | nil => intro ln _; simp [expectedErr, hc]
  | cons a pre ih =>
    intro ln h
    have ha : isMismatchChar a = false := h a (by simp)
    have hrec := fun ln' => ih ln' (fun x hx => h x (by simp [hx]))
    rw [List.cons_append, expectedErr_cons_benign a _ ln ha]
    by_cases hn : (a == '\n') = true
    · rw [if_pos hn, hrec (ln + 1)]
      rw [beq_iff_eq] at hn
      subst hn
      simp [List.count_cons]
      omega
    · rw [if_neg hn, hrec ln]
      rw [Bool.not_eq_true] at hn
      simp [List.count_cons, hn]

/-- The lexer reports exactly the mismatch character and line that
`expectedErr` predicts, on sources free of string literals. -/
theorem lexAux_err_expected :
    ∀ (fuel : Nat) (cs : List Char) (ln : Nat) (c : Char) (n : Nat),
      cs.length < fuel → ('"' : Char) ∉ cs →
      expectedErr cs ln = some (c, n) → lexAux fuel cs ln = .err c n := by
  intro fuel
  induction fuel with
  | zero => intro cs ln c n hlen _ _; exact absurd hlen (Nat.not_lt_zero _)
  | succ f ih =>
    intro cs ln c n hlen hq hexp
    cases cs with
    | nil => exact absurd hexp (by simp [expectedErr])
    | cons a cs' =>
      have hqa : (a == '"') = false := by
        cases hb : a == '"' with
        | false => rfl
        | true =>
          rw [beq_iff_eq] at hb
          subst hb
          exact absurd (List.mem_cons_self _ _) hq
      have hq' : ('"' : Char) ∉ cs' := fun hm => hq (List.mem_cons_of_mem _ hm)
      have hlen' : cs'.length < f := by
        simp only [List.length_cons] at hlen
        omega
      by_cases hd : a.isDigit = true
      · have hben := digit_benign a hd
        have hexp' : expectedErr (cs'.dropWhile Char.isDigit) ln = some (c, n) := by
          rw [expectedErr_dropWhile Char.isDigit digit_benign cs' ln]
          revert hexp
          simp [expectedErr, hben.1, hben.2]
        have hr := ih (cs'.dropWhile Char.isDigit) ln c n
          (Nat.lt_of_le_of_lt (length_dropWhile_le' _ _) hlen')
          (not_mem_dropWhile _ _ hq') hexp'
        simp [lexAux, hqa, hd, hr, consTok]
      · rw [Bool.not_eq_true] at hd
        by_cases hid : isIdStart a = true
        · have hben : isMismatchChar a = false ∧ (a == '\n') = false := by
            apply idCont_benign
            rw [isIdStart, Bool.or_eq_true] at hid
            rcases hid with h | h <;> simp [isIdCont, h]
          have hexp' : expectedErr (cs'.dropWhile isIdCont) ln = some (c, n) := by
            rw [expectedErr_dropWhile isIdCont idCont_benign cs' ln]
            revert hexp
            simp [expectedErr, hben.1, hben.2]
          have hr := ih (cs'.dropWhile isIdCont) ln c n
            (Nat.lt_of_le_of_lt (length_dropWhile_le' _ _) hlen')
            (not_mem_dropWhile _ _ hq') hexp'
          simp [lexAux, hqa, hd, hid, hr, consTok]
        · rw [Bool.not_eq_true] at hid
          by_cases hop : isOpChar a = true
          · have hben := op_benign a hop
            have hexp' : expectedErr cs' ln = some (c, n) := by
              revert hexp
              simp [expectedErr, hben.1, hben.2]
            have hr := ih cs' ln c n hlen' hq' hexp'
            simp [lexAux, hqa, hd, hid, hop, hr, consTok]
          · rw [Bool.not_eq_true] at hop
            by_cases hnl : (a == '\n') = true
            · have hmis : isMismatchChar a = false := by
                rw [beq_iff_eq] at hnl
                subst hnl
                decide
              have hexp' : expectedErr cs' (ln + 1) = some (c, n) := by
                revert hexp
                simp [expectedErr, hmis, hnl]
              have hr := ih cs' (ln + 1) c n hlen' hq' hexp'
              simp [lexAux, hqa, hd, hid, hop, hnl, hr]
            · rw [Bool.not_eq_true] at hnl
              by_cases hsp : (a == ' ' || a == '\t') = true
              · have hben := spacetab_benign a hsp
                have hexp' :
                    expectedErr (cs'.dropWhile (fun d => d == ' ' || d == '\t')) ln =
                      some (c, n) := by
                  rw [expectedErr_dropWhile _ spacetab_benign cs' ln]
                  revert hexp
                  simp [expectedErr, hben.1, hben.2]
                have hr := ih (cs'.dropWhile (fun d => d == ' ' || d == '\t')) ln c n
                  (Nat.lt_of_le_of_lt (length_dropWhile_le' _ _) hlen')
                  (not_mem_dropWhile _ _ hq') hexp'
                simp [lexAux, hqa, hd, hid, hop, hnl, hsp, hr]
              · simp only [Bool.or_eq_true, not_or, Bool.not_eq_true] at hsp
                have hmis : isMismatchChar a = true := by
                  simp [isMismatchChar, hqa, hd, hid, hop, hnl, hsp.1, hsp.2]
                have := hexp
                simp only [expectedErr, hmis, if_pos, if_true] at this
                rw [Option.some.injEq, Prod.mk.injEq] at this
                obtain ⟨rfl, rfl⟩ := this
                simp [lexAux, hqa, hd, hid, hop, hnl, hsp.1, hsp.2]

/-! ## Theorems -/

/-- C1: on the spec's `para` example the interpreter does not produce
the lines 0, 1, 2 — the `para` branch binds a variable literally named
`var i` and then feeds `var i = 0` to the host statement executor,
which rejects it (a Python SyntaxError), so the run dies with an
uncaught host exception having produced no output at all. -/
theorem run_para_var_exec_crashes : run c1src 50 = .crash [] := by decide

/-- C2, counterexample: a false `si` condition does not skip the whole
block.  With body lines `imprimir "a"` and `imprimir "b"` and `x = 6`,
the interpreter skips only the condition line and the first body line,
then executes `imprimir "b"` as a top-level statement, so the run
outputs `b` — the claim demands no output from the block body. -/
theorem si_false_second_body_line_executes : run c2src 50 = .done ["b"] := by decide

/-- C3: tokenizing `"var x = 5\nimprimir x\n"` yields six tokens and no
NEWLINE tokens at all — the lexer's NEWLINE arm only advances the line
counter and appends nothing, while the claim (and the parser's own VAR
branch, which waits for a NEWLINE kind) expects NEWLINE tokens in the
sequence. -/
theorem lexer_emits_no_newline_tokens :
    lexer "var x = 5\nimprimir x\n" =
      .ok [⟨"VAR", "var"⟩, ⟨"ID", "x"⟩, ⟨"OP", "="⟩, ⟨"NUMBER", "5"⟩,
           ⟨"IMPRIMIR", "imprimir"⟩, ⟨"ID", "x"⟩] := by decide

/-- C7: the semantic checker returns success for every tree, without
traversal. -/
theorem semantic_analyzer_always_true (t : STree) : semantic_analyzer t = true := rfl

/-- C8: running tokenize-then-parse on identical input yields
structurally identical results.  The source lexer and parser compute
their results from the input alone (their only side effect is writing
diagnostics to the console, which feeds nothing back), so the embedded
pipeline is a pure function and two runs on the same source coincide
definitionally. -/
theorem pipeline_deterministic (s1 s2 : String) (h : s1 = s2) :
    pipeline s1 = pipeline s2 := by rw [h]

/-- C8, witness: the two runs of the pipeline on a concrete program
agree. -/
theorem pipeline_deterministic_witness :
    pipeline "inicio\nvar x = 5\nfin" = pipeline "inicio\nvar x = 5\nfin" :=
  pipeline_deterministic _ _ rfl

/-- C9: on the token sequence INICIO, FIN_SI, FIN — which passes the
parser's precondition — the FIN_SI pop moves `current_node` to the
root's nonexistent parent (`None`), and the catch-all append of the FIN
token then raises an uncaught AttributeError: the parser neither
returns a tree nor a Parse diagnostic.  The same happens with
FIN_FUNCION and FIN_PARA. -/
theorem parser_fin_si_at_root_crashes :
    parser [⟨"INICIO", "inicio"⟩, ⟨"FIN_SI", "fin_si"⟩, ⟨"FIN", "fin"⟩] = .crash ∧
    parser [⟨"INICIO", "inicio"⟩, ⟨"FIN_FUNCION", "fin_funcion"⟩, ⟨"FIN", "fin"⟩] = .crash ∧
    parser [⟨"INICIO", "inicio"⟩, ⟨"FIN_PARA", "fin_para"⟩, ⟨"FIN", "fin"⟩] = .crash :=
  ⟨rfl, rfl, rfl⟩

/-- C10, counterexample: the claim quantifies over every source with an
unterminated `funcion` line, but a runtime error on an earlier line
returns a Runtime diagnostic before the `funcion` line is ever reached:
on `"inicio\nvar x = @\nfuncion f\nfin"` the run returns the
invalid-variable diagnostic for line 2, yet the source contains the
line `funcion f` with no later `fin_funcion` line. -/
theorem run_funcion_claim_universal_fails :
    run c10src 50 = .diag ["Error: valor inválido para la variable x en la línea 2"] ∧
    (splitOnS c10src "\n").get? 2 = some "funcion f" ∧
    (splitOnS c10src "\n").all (fun l => !(startsWithS (trimS l) "fin_funcion")) = true := by
  decide

/-- C4: `parser` returns a tree only for a non-empty token sequence
whose first token has kind INICIO and whose last has kind FIN, and for
every sequence violating any of these it returns the Parse diagnostic
(and hence no tree): the check of lines 499-501 runs before anything
else. -/
theorem parser_inicio_fin_precondition (ts : List Tok) :
    (∀ t, parser ts = .tree t →
      ts ≠ [] ∧ ts.head?.map Tok.kind = some "INICIO" ∧
        ts.getLast?.map Tok.kind = some "FIN") ∧
    (¬ (ts.head?.map Tok.kind = some "INICIO" ∧ ts.getLast?.map Tok.kind = some "FIN") →
      parser ts = .diag precondMsg ∧ ∀ t, parser ts ≠ .tree t) := by
  constructor
  · intro t ht
    by_cases h : ts.head?.map Tok.kind = some "INICIO" ∧ ts.getLast?.map Tok.kind = some "FIN"
    · refine ⟨?_, h.1, h.2⟩
      intro he
      rw [he] at h
      simp at h
    · unfold parser at ht
      rw [if_neg h] at ht
      exact ParseOutcome.noConfusion ht
  · intro h
    have hd : parser ts = .diag precondMsg := by
      unfold parser
      rw [if_neg h]
    exact ⟨hd, fun t ht => ParseOutcome.noConfusion (hd ▸ ht)⟩

/-- C4, witness: the empty sequence gets the diagnostic, and the
sequence INICIO, FIN — for which the parser returns a tree — satisfies
the precondition. -/
theorem parser_inicio_fin_precondition_witness :
    parser ([] : List Tok) = .diag precondMsg ∧
    (([⟨"INICIO", "inicio"⟩, ⟨"FIN", "fin"⟩] : List Tok) ≠ [] ∧
      ([⟨"INICIO", "inicio"⟩, ⟨"FIN", "fin"⟩] : List Tok).head?.map Tok.kind = some "INICIO" ∧
      ([⟨"INICIO", "inicio"⟩, ⟨"FIN", "fin"⟩] : List Tok).getLast?.map Tok.kind = some "FIN") :=
  ⟨((parser_inicio_fin_precondition []).2 (by decide)).1,
   (parser_inicio_fin_precondition _).1
     (.node "inicio" [.node "inicio" [], .node "fin" [], .node "fin" []]) rfl⟩

/-- C5: when the token walk meets a VAR token it collects exactly the
tokens up to (not including) the next NEWLINE token as the declaration
text, appends a `var` node carrying that text as a nested child to the
current node, and resumes after the NEWLINE. -/
theorem parser_var_collects_until_newline
    (fuel pos : Nat) (v nl : Tok) (decl post : List Tok)
    (curr : String × List STree) (ctx : List Frame)
    (hv : v.kind = "VAR") (hnl : nl.kind = "NEWLINE")
    (hdecl : ∀ u ∈ decl, u.kind ≠ "NEWLINE") :
    parserLoop (fuel + 1) pos (v :: (decl ++ nl :: post)) (.at curr ctx) =
      parserLoop fuel (pos + decl.length + 2) post
        (.at (curr.1,
              curr.2 ++ [.node "var" [.node (intercalateS " " (decl.map Tok.text)) []]]) ctx) := by
  have hsplit := takeWhile_append_stop (fun u => u.kind ≠ "NEWLINE") nl
    (by simp [hnl]) decl post (fun a ha => by simp [hdecl a ha])
  simp only [parserLoop, hv, hsplit.1, hsplit.2]
  rw [if_neg (by decide : ¬("VAR" : String) = "IMPRIMIR"),
      if_neg (by decide : ¬("VAR" : String) = "SI"),
      if_neg (by decide : ¬("VAR" : String) = "FIN_SI"),
      if_neg (by decide : ¬("VAR" : String) = "SINO")]
  simp [PState.addChild]

/-- C5, witness: the declaration `x = 5` of a VAR token is collected up
to the NEWLINE and the walk resumes at the FIN token after it. -/
theorem parser_var_collects_witness :
    parserLoop 9 1
      [⟨"VAR", "var"⟩, ⟨"ID", "x"⟩, ⟨"OP", "="⟩, ⟨"NUMBER", "5"⟩, ⟨"NEWLINE", "\n"⟩,
       ⟨"FIN", "fin"⟩]
      (.at ("inicio", [.node "inicio" []]) []) =
    parserLoop 8 6 [⟨"FIN", "fin"⟩]
      (.at ("inicio",
            [.node "inicio" [], .node "var" [.node "x = 5" []]]) []) :=
  parser_var_collects_until_newline 8 1 ⟨"VAR", "var"⟩ ⟨"NEWLINE", "\n"⟩
    [⟨"ID", "x"⟩, ⟨"OP", "="⟩, ⟨"NUMBER", "5"⟩] [⟨"FIN", "fin"⟩]
    ("inicio", [.node "inicio" []]) [] rfl rfl (by decide)

/-- C2, amended: when the interpreter reaches a `si` line whose
equality condition evaluates false, it advances the cursor by exactly
two — the condition line and the first body line — leaving the
environment, the function table and the output untouched.  A one-line
body is therefore fully skipped, but any further body lines are left
for the main loop to execute as top-level statements. -/
theorem si_false_skips_condition_and_first_body_line
    (lines : List String) (fuel : Nat) (st : St) (raw l r : String)
    (hget : lines.get? st.i = some raw)
    (hvar : startsWithS (trimS raw) "var" = false)
    (hfun : startsWithS (trimS raw) "funcion" = false)
    (himp : startsWithS (trimS raw) "imprimir" = false)
    (hsi : startsWithS (trimS raw) "si" = true)
    (hsplit : splitOnS (siCond (trimS raw)) "==" = [l, r])
    (htest : siTest st.env (trimS l) (trimS r) = some false) :
    runFrom lines (fuel + 1) st = runFrom lines fuel { st with i := st.i + 2 } := by
  simp only [runFrom, hget, hvar, hfun, himp, hsi, hsplit, htest]
  simp

/-- C2, witness: with `x = 6` the condition `x == 5` is false and the
step from the `si` line moves the cursor from 0 to 2 with state
otherwise unchanged. -/
theorem si_false_skips_witness :
    runFrom ["si x == 5 entonces", "imprimir \"a\""] 6 ⟨[("x", .int 6)], [], [], 0⟩ =
      runFrom ["si x == 5 entonces", "imprimir \"a\""] 5 ⟨[("x", .int 6)], [], [], 2⟩ :=
  si_false_skips_condition_and_first_body_line
    ["si x == 5 entonces", "imprimir \"a\""] 5 ⟨[("x", .int 6)], [], [], 0⟩
    "si x == 5 entonces" "x " " 5" rfl (by decide) (by decide) (by decide) (by decide)
    (by decide) (by decide)

/-- C10, amended: whenever the interpreter actually processes a line
starting with `funcion` and no later line starts with `fin_funcion`,
the body-capturing scan runs past the end of the line list and the run
dies with an uncaught indexing error — it does not return a Runtime
diagnostic from that point.  (An error on an earlier line can still
return a Runtime diagnostic before such a line is reached, as the
counterexample shows.) -/
theorem funcion_unterminated_crashes
    (lines : List String) (fuel : Nat) (st : St) (raw : String)
    (hget : lines.get? st.i = some raw)
    (hvar : startsWithS (trimS raw) "var" = false)
    (hfun : startsWithS (trimS raw) "funcion" = true)
    (hall : (lines.drop (st.i + 1)).all
      (fun l => !(startsWithS (trimS l) "fin_funcion")) = true) :
    runFrom lines (fuel + 1) st = .crash st.out := by
  simp only [runFrom, hget, hvar, hfun, scanFunc_eq_none _ hall]
  simp

/-- C10, witness: `funcion f` with nothing after it crashes the run
from that state. -/
theorem funcion_unterminated_witness :
    runFrom ["funcion f"] 4 ⟨[], [], [], 0⟩ = .crash [] :=
  funcion_unterminated_crashes ["funcion f"] 3 ⟨[], [], [], 0⟩ "funcion f"
    rfl (by decide) (by decide) (by decide)

/-- C6, counterexample: string literal bodies may span newlines
(`[^"]*` matches them) and the lexer's line counter only advances on a
NEWLINE match, so on `"\"a\nb\"@"` the `@` is rejected with reported
line 1, while the claim's formula — newline characters preceding `@`
plus one — demands 2. -/
theorem lexer_line_count_misses_string_newlines :
    lexer "\"a\nb\"@" = .err '@' 1 ∧ ("\"a\nb\"" : String).data.count '\n' + 1 = 2 := by
  decide

/-- C6, amended: for a source with no string literal (no `"`
character), tokenize aborts at the first character matched by no
defined token rule, returns the lex diagnostic instead of any token
sequence, and the reported line number equals the count of newline
characters preceding that character plus 1.  (Newlines consumed inside
a string literal do not advance the line counter, as the
counterexample shows.) -/
theorem lexer_mismatch_reports_line (pre post : List Char) (c : Char)
    (hq : ('"' : Char) ∉ pre ++ c :: post)
    (hc : isMismatchChar c = true)
    (hpre : ∀ a ∈ pre, isMismatchChar a = false) :
    lexer (String.mk (pre ++ c :: post)) = .err c (pre.count '\n' + 1) := by
  have hexp := expectedErr_prefix c post hc pre 1 hpre
  rw [lexer]
  exact lexAux_err_expected ((pre ++ c :: post).length + 1) (pre ++ c :: post) 1 c
    (pre.count '\n' + 1) (Nat.lt_succ_self _) hq
    (hexp.trans (by rw [Nat.add_comm]))

/-- C6, witness: on `x`, newline, `@` the lexer reports the `@` at line
2 — one preceding newline plus one. -/
theorem lexer_mismatch_witness :
    lexer (String.mk ['x', '\n', '@']) =
      .err '@' ((['x', '\n'] : List Char).count '\n' + 1) :=
  lexer_mismatch_reports_line ['x', '\n'] [] '@' (by decide) (by decide) (by decide)

end MiniLang
